import Mathlib

/-!
Verification development for the expression parser / in-place evaluator
(`main.c` of xypwn/expression-parser, most feature-complete variant: the
one with identifier resolution, variable and function registries, implicit
multiplication and unary minus).

Modelling conventions:
* The C type `real` is `double`; it is modelled here as `ℚ`.  Every
  computation appearing in the verified examples stays inside the integers,
  where IEEE754 binary64 arithmetic is exact, so the rational model agrees
  with the C behaviour on those inputs.  IEEE754 special values (NaN,
  Infinity) are outside this model.
* The global token buffer `toks` (fixed capacity `TOKS_CAP`) is modelled as
  a `List Tok`; `push_tok` drops the token when the list already has
  `TOKS_CAP` elements, exactly like the C code.
* The C library functions `sin` and `cos` compute transcendental values and
  are kept as parameters of the registry; no claim evaluates them.
* `exit(1)`-style failures are modelled as `Except` errors; the error
  taxonomy follows the fprintf sites of the source.
* Recursion in `eval`/`collapse` is made total with an explicit fuel
  argument; fuel exhaustion is a separate error value that provably never
  occurs on the inputs considered.  The tokenizer consumes at least one
  character per step, so its fuel is the input length plus one and the
  fuel-exhaustion branch is unreachable.
* Out-of-bounds pointer scans (undefined behaviour in C) are modelled by a
  distinguished `overrun` error.
-/

/-- Token kinds of `struct Tok`: the `TokNull` default, an operator
character, a number, and an identifier (`TokIdent`, whose payload `Str` is
the scanned name). -/
inductive Tok where
  | null : Tok
  | op : Char → Tok
  | num : ℚ → Tok
  | ident : String → Tok
deriving DecidableEq

/-- Capacity of the global token buffer (`#define TOKS_CAP 65536`). -/
def TOKS_CAP : Nat := 65536

/-- Precedence table `op_prec`: a `uint8_t[256]` that is zero everywhere
except at `'+' '-'` (1), `'*' '/'` (2) and `'^'` (3); the delimiters
`( ) ,` are left at 0. -/
def op_prec (c : Char) : Nat :=
  if c = '+' ∨ c = '-' then 1
  else if c = '*' ∨ c = '/' then 2
  else if c = '^' then 3
  else 0

/-- Associativity values `OrderLtr` / `OrderRtl`. -/
inductive Order where
  | ltr : Order
  | rtl : Order
deriving DecidableEq

/-- Associativity table `op_order`: `OrderRtl` only for `'^'`, `OrderLtr`
(the zero value of the C enum array) everywhere else. -/
def op_order (c : Char) : Order :=
  if c = '^' then Order.rtl else Order.ltr

/-- Macro `IS_FLOAT(c)`: a digit or a decimal point. -/
def isFloatChar (c : Char) : Bool :=
  ('0' ≤ c ∧ c ≤ '9') ∨ c = '.'

/-- Macro `IS_ALPHA(c)`: an ASCII letter. -/
def isAlphaChar (c : Char) : Bool :=
  ('A' ≤ c ∧ c ≤ 'Z') ∨ ('a' ≤ c ∧ c ≤ 'z')

/-- Numeric value of a digit string (most significant digit first). -/
def digitsVal (ds : List Char) : Nat :=
  ds.foldl (fun a d => 10 * a + (d.toNat - 48)) 0

/-- Model of `strtod` on the scratch buffer contents: an integer part, then
optionally a single decimal point and a fractional part; anything after a
second decimal point is ignored, as `strtod` stops parsing there.  The
buffer only ever contains characters satisfying `IS_FLOAT`. -/
def strtodModel (cs : List Char) : ℚ :=
  let ip := cs.takeWhile (fun c => '0' ≤ c ∧ c ≤ '9')
  match cs.drop ip.length with
  | '.' :: rest =>
      let fp := rest.takeWhile (fun c => '0' ≤ c ∧ c ≤ '9')
      (digitsVal ip : ℚ) + (digitsVal fp : ℚ) / ((10 : ℚ) ^ fp.length)
  | _ => (digitsVal ip : ℚ)

/-- Function `push_tok`: appends unless the buffer already holds `TOKS_CAP`
tokens, in which case the token is silently dropped. -/
def push_tok (toks : List Tok) (t : Tok) : List Tok :=
  if toks.length < TOKS_CAP then toks ++ [t] else toks

/-- Value of the C local `last` before each scan step: `toks[toks_size-1]`
when the buffer is nonempty, `TokNull` otherwise. -/
def lastTok (toks : List Tok) : Tok :=
  (toks.getLast?).getD Tok.null

/-- Guard for implicit multiplication before a `Number` or `Identifier`
token (`last.kind == TokIdent || (last.kind == TokOp && last.Char == ')')
|| last.kind == TokNum`). -/
def starBeforeAtom (last : Tok) : Bool :=
  match last with
  | Tok.ident _ => true
  | Tok.op c => c = ')'
  | Tok.num _ => true
  | Tok.null => false

/-- Guard for implicit multiplication before a `'('` token
(`(last.kind == TokOp && last.Char == ')') || last.kind == TokNum`); note
that, unlike `starBeforeAtom`, a preceding identifier does not qualify —
that shape is a function call. -/
def starBeforeParen (last : Tok) : Bool :=
  match last with
  | Tok.op c => c = ')'
  | Tok.num _ => true
  | _ => false

/-- Bounded `takeWhile`, modelling the scratch-buffer loops
`while (i < bound && P(curr[i]))`: the length bound is checked before the
character predicate. -/
def takeUpTo (n : Nat) (p : Char → Bool) : List Char → List Char
  | [] => []
  | c :: cs => if n = 0 then [] else if p c then c :: takeUpTo (n - 1) p cs else []

/-- Errors of `tokenize`, one per `exit(1)` site, plus the fuel artifact of
the embedding (provably unreachable: the scan consumes at least one
character per step and is run with fuel `length + 1`). -/
inductive TokenizeError where
  | unmatchedClose : TokenizeError
  | unmatchedOpen : TokenizeError
  | unrecognized : Nat → TokenizeError
  | outOfFuel : TokenizeError
deriving DecidableEq

/-- Main scan loop of `tokenize`: one logical token per step.  `pos` is
`curr - expr`, `depth` is `paren_depth`.  A number run takes the current
character plus at most 14 more (`char buf[16]`, `i < 15`); an identifier
run takes the current character plus at most 30 more (`malloc(32)`,
`i < 31`).  The implicit-multiplication star is pushed before the atom when
the corresponding guard holds for the last pushed token.  A `')'` on depth
0 fails immediately; a positive depth at end of input fails with the
unmatched-`'('` error; otherwise the closing wrapper `')'` is pushed. -/
def tokenizeLoop : Nat → List Char → Nat → List Tok → Nat → Except TokenizeError (List Tok)
  | 0, _, _, _, _ => Except.error TokenizeError.outOfFuel
  | _ + 1, [], _, toks, depth =>
      if 0 < depth then Except.error TokenizeError.unmatchedOpen
      else Except.ok (push_tok toks (Tok.op ')'))
  | fuel + 1, c :: rest, pos, toks, depth =>
      let last := lastTok toks
      if c = ' ' then
        tokenizeLoop fuel rest (pos + 1) toks depth
      else if isFloatChar c then
        let chunk := c :: takeUpTo 14 isFloatChar rest
        let toks1 := if starBeforeAtom last then push_tok toks (Tok.op '*') else toks
        let toks2 := push_tok toks1 (Tok.num (strtodModel chunk))
        tokenizeLoop fuel (rest.drop (chunk.length - 1)) (pos + chunk.length) toks2 depth
      else if isAlphaChar c then
        let chunk := c :: takeUpTo 30 isAlphaChar rest
        let toks1 := if starBeforeAtom last then push_tok toks (Tok.op '*') else toks
        let toks2 := push_tok toks1 (Tok.ident (String.mk chunk))
        tokenizeLoop fuel (rest.drop (chunk.length - 1)) (pos + chunk.length) toks2 depth
      else if c = '(' then
        let toks1 := if starBeforeParen last then push_tok toks (Tok.op '*') else toks
        tokenizeLoop fuel rest (pos + 1) (push_tok toks1 (Tok.op '(')) (depth + 1)
      else if c = ')' then
        if depth = 0 then Except.error TokenizeError.unmatchedClose
        else tokenizeLoop fuel rest (pos + 1) (push_tok toks (Tok.op ')')) (depth - 1)
      else if c = ',' ∨ c = '+' ∨ c = '-' ∨ c = '*' ∨ c = '/' ∨ c = '^' then
        tokenizeLoop fuel rest (pos + 1) (push_tok toks (Tok.op c)) depth
      else Except.error (TokenizeError.unrecognized pos)
termination_by structural fuel _ _ _ _ => fuel

/-- Function `tokenize`: pushes the implicit outer `'('`, scans the whole
string, and (inside the loop's end-of-input case) appends the outer `')'`.
The fuel `length + 1` is exact: each step consumes at least one input
character. -/
def tokenize (expr : String) : Except TokenizeError (List Tok) :=
  tokenizeLoop (expr.data.length + 1) expr.data 0 (push_tok [] (Tok.op '(')) 0

/-- Entry of the variable registry (`struct Var`). -/
structure Var where
  name : String
  val : ℚ
deriving DecidableEq

/-- Function `set_var`: overwrite the value of the first entry with the
given name, or append a fresh entry when no entry matches.  (The C code
does not bounds-check `VARS_CAP` on append.) -/
def set_var : List Var → String → ℚ → List Var
  | [], name, v => [⟨name, v⟩]
  | w :: ws, name, v =>
      if w.name = name then ⟨w.name, v⟩ :: ws else w :: set_var ws name v

/-- Function `unset_var`: remove the first entry with the given name (the
`memmove` shifts the tail left); do nothing when no entry matches. -/
def unset_var : List Var → String → List Var
  | [], _ => []
  | w :: ws, name =>
      if w.name = name then ws else w :: unset_var ws name

/-- Variable lookup loop inside `collapse`: scans the whole registry and
keeps the value of the last matching entry (`found = true; res = ...` with
no break). -/
def lookupVarLast (vars : List Var) (name : String) : Option ℚ :=
  vars.foldl (fun acc w => if w.name = name then some w.val else acc) none

/-- Entry of the function registry (`struct Function`). -/
structure Func where
  name : String
  func : List ℚ → ℚ
  n_args : Nat

/-- Capacity of the function registry (`#define FUNCTIONS_CAP 256`). -/
def FUNCTIONS_CAP : Nat := 256

/-- Function `add_func`: append when below capacity, silently drop
otherwise. -/
def add_func (fs : List Func) (name : String) (f : List ℚ → ℚ) (n : Nat) : List Func :=
  if fs.length < FUNCTIONS_CAP then fs ++ [⟨name, f, n⟩] else fs

/-- Errors of `eval`/`collapse`, one per `exit(1)` site, plus the fuel
artifact of the embedding and a distinguished error standing for the
out-of-bounds pointer scans that are undefined behaviour in the C code
(never reached on the inputs considered). -/
inductive EvalError where
  | expectedDelimiter : EvalError
  | invalidTokenOrder : EvalError
  | uncollapsibleUnaryMinus : EvalError
  | unknownVariable : String → EvalError
  | unknownFunction : String → EvalError
  | arityMismatch : String → Nat → Nat → EvalError
  | unhandledOperator : EvalError
  | overrun : EvalError
  | outOfFuel : EvalError
deriving DecidableEq

/-- Function `del_toks(begin, end)` at index `b`, removing `n` tokens:
shifts the remainder of the buffer left over the deleted range. -/
def delToks (s : List Tok) (b n : Nat) : List Tok :=
  s.take b ++ s.drop (b + n)

/-- Test used throughout `eval`/`collapse` for a delimiter-class token:
an operator token whose precedence is 0. -/
def isDelimTok : Option Tok → Bool
  | some (Tok.op c) => op_prec c = 0
  | _ => false

/-- Test for `t[2].kind == TokOp && t[2].Char == '('` guarded by the bounds
check `t + 2 < toks + toks_size` (an out-of-range index yields `none`). -/
def isOpenParenTok : Option Tok → Bool
  | some (Tok.op c) => c = '('
  | _ => false

/-- Scan `for (i = ..; !(t[i].kind == TokOp && OP_PREC(t[i].Char) == 0); i++)`
from absolute index `start`: the first delimiter-class token at or after
`start`, with its index and character.  `none` models the scan running off
the end of the buffer (undefined behaviour in C). -/
def scanDelimAux : List Tok → Nat → Option (Nat × Char)
  | [], _ => none
  | t :: ts, i =>
      match t with
      | Tok.op c => if op_prec c = 0 then some (i, c) else scanDelimAux ts (i + 1)
      | _ => scanDelimAux ts (i + 1)

/-- Delimiter scan of the whole buffer starting at index `start`. -/
def scanDelim (s : List Tok) (start : Nat) : Option (Nat × Char) :=
  scanDelimAux (s.drop start) start

/-- Integer power on `ℚ`, modelling C `pow` on the exact cases exercised
here: an integer exponent raises exactly; the result of a non-integer
exponent is generally irrational (not representable in the model) and is
mapped to 0.  No verified example uses a non-integer exponent. -/
def ratPow (a b : ℚ) : ℚ :=
  if b.den = 1 then
    if 0 ≤ b.num then a ^ b.num.toNat else (a ^ (-b.num).toNat)⁻¹
  else 0

/-- Binary operator dispatch of the fold phase of `eval` (`switch
(curr_op)`); the `default` branch is the unreachable `exit(1)` for an
operator of positive precedence that is none of `+ - * / ^`. -/
def applyOp (c : Char) (lhs rhs : ℚ) : Except EvalError ℚ :=
  if c = '+' then Except.ok (lhs + rhs)
  else if c = '-' then Except.ok (lhs - rhs)
  else if c = '*' then Except.ok (lhs * rhs)
  else if c = '/' then Except.ok (lhs / rhs)
  else if c = '^' then Except.ok (ratPow lhs rhs)
  else Except.error EvalError.unhandledOperator

/-- Function lookup loop of `collapse`: scans the whole registry; every
entry with a matching name is considered, a matching entry whose arity
differs from the collected argument count aborts with the arity error, and
the result of the last matching entry wins.  The accumulator is `none`
while `func_found` is still false. -/
def callFuncs : List Func → String → List ℚ → Option ℚ → Except EvalError (Option ℚ)
  | [], _, _, acc => Except.ok acc
  | f :: fs, name, args, acc =>
      if f.name = name then
        if args.length ≠ f.n_args then
          Except.error (EvalError.arityMismatch name f.n_args args.length)
        else callFuncs fs name args (some (f.func args))
      else callFuncs fs name args acc

mutual

/-- Function `collapse(t)` at index `p` of buffer `s`: sequentially
(1) a unary minus at `t[1]` recursively collapses its right-hand
neighbour, requires `t[2]` to now be a number, negates it and deletes the
minus; (2) a `'('` at `t[1]` recursively evaluates the sub-expression,
deletes the consumed range `t+2 .. t+i` (where `t[i]` is the next
delimiter-class token) and writes the result over `t[1]`; (3) an
identifier at `t[1]` followed by `'('` is a function call (arguments
gathered by `argsLoop`, then registry dispatch), and a bare identifier is
a variable lookup whose value is written over `t[1]`. -/
def collapseF (vars : List Var) (funcs : List Func) :
    Nat → List Tok → Nat → Except EvalError (List Tok)
  | 0, _, _ => Except.error EvalError.outOfFuel
  | fuel + 1, s, p => do
      let s ←
        match s[p + 1]? with
        | some (Tok.op '-') => do
            let s ← collapseF vars funcs fuel s (p + 1)
            match s[p + 2]? with
            | some (Tok.num x) =>
                pure (delToks (s.set (p + 2) (Tok.num (-x))) (p + 1) 1)
            | _ => Except.error EvalError.uncollapsibleUnaryMinus
        | _ => pure s
      let s ←
        match s[p + 1]? with
        | some (Tok.op '(') => do
            let (res, s) ← evalF vars funcs fuel s (p + 1)
            match scanDelim s (p + 2) with
            | some (i, _) =>
                pure ((delToks s (p + 2) (i - p - 1)).set (p + 1) (Tok.num res))
            | none => Except.error EvalError.overrun
        | _ => pure s
      match s[p + 1]? with
      | some (Tok.ident name) =>
          if isOpenParenTok s[p + 2]? then do
            let (args, s) ← argsLoopF vars funcs fuel s (p + 2) []
            match ← callFuncs funcs name args none with
            | some r => pure (s.set (p + 1) (Tok.num r))
            | none => Except.error (EvalError.unknownFunction name)
          else
            match lookupVarLast vars name with
            | some v => pure (s.set (p + 1) (Tok.num v))
            | none => Except.error (EvalError.unknownVariable name)
      | _ => pure s
termination_by structural fuel _ _ => fuel

/-- Argument-gathering loop of the function-call case of `collapse`, with
the working pointer already moved to the call's `'('` (index `q`).  Each
round evaluates one argument sub-expression (only while fewer than 16
results have been collected — `real arg_results[16]`), scans right for the
next delimiter-class token, deletes up to it (inclusive when it is the
closing `')'`), and stops after that `')'`.  A delimiter that is neither
`','` nor `')'` restarts the round, which in C is an infinite loop. -/
def argsLoopF (vars : List Var) (funcs : List Func) :
    Nat → List Tok → Nat → List ℚ → Except EvalError (List ℚ × List Tok)
  | 0, _, _, _ => Except.error EvalError.outOfFuel
  | fuel + 1, s, q, args => do
      let (args, s) ←
        if args.length < 16 then do
          let (r, s) ← evalF vars funcs fuel s q
          pure (args ++ [r], s)
        else pure (args, s)
      match scanDelim s (q + 1) with
      | none => Except.error EvalError.overrun
      | some (i, c) =>
          if c = ',' then argsLoopF vars funcs fuel (delToks s q (i - q)) q args
          else if c = ')' then pure (args, delToks s q (i - q + 1))
          else argsLoopF vars funcs fuel s q args
termination_by structural fuel _ _ _ => fuel

/-- Function `eval(t)` at index `p`: requires a delimiter-class token at
`t[0]`, then runs the fold loop. -/
def evalF (vars : List Var) (funcs : List Func) :
    Nat → List Tok → Nat → Except EvalError (ℚ × List Tok)
  | 0, _, _ => Except.error EvalError.outOfFuel
  | fuel + 1, s, p =>
      if isDelimTok s[p]? then evalLoopF vars funcs fuel s p
      else Except.error EvalError.expectedDelimiter
termination_by structural fuel _ _ => fuel

/-- Fold loop (`while (1)`) of `eval`: collapse the term at `t[1]`, require
the shape `[Operator, Number, Operator]` at `t[0..2]`, return the number
when both operators are delimiters, advance two slots right when the next
operator binds tighter (or binds equally right-associatively), and
otherwise fold: apply `curr_op` to `t[-1].Num` and `t[1].Num`, write the
result over `t[1]`, delete `t[-1]` and `t[0]`, and step two slots left.
The advance/fold conditions of the source are exhaustive, so the fold arm
is the else-branch here; reading a `t[-1]` that is not a number (undefined
in C, unreachable under the entry precondition) is mapped to the
invalid-token-order error. -/
def evalLoopF (vars : List Var) (funcs : List Func) :
    Nat → List Tok → Nat → Except EvalError (ℚ × List Tok)
  | 0, _, _ => Except.error EvalError.outOfFuel
  | fuel + 1, s, p => do
      let s ← collapseF vars funcs fuel s p
      match s[p]?, s[p + 1]?, s[p + 2]? with
      | some (Tok.op c0), some (Tok.num x), some (Tok.op c2) =>
          if op_prec c0 = 0 ∧ op_prec c2 = 0 then pure (x, s)
          else if op_prec c0 < op_prec c2 ∨
              (op_prec c2 = op_prec c0 ∧ op_order c0 = Order.rtl) then
            evalLoopF vars funcs fuel s (p + 2)
          else
            match s[p - 1]? with
            | some (Tok.num lhs) => do
                let res ← applyOp c0 lhs x
                evalLoopF vars funcs fuel (delToks (s.set (p + 1) (Tok.num res)) (p - 1) 2) (p - 2)
            | _ => Except.error EvalError.invalidTokenOrder
      | _, _, _ => Except.error EvalError.invalidTokenOrder
termination_by structural fuel _ _ => fuel

end

/-- Fuel budget for a top-level evaluation; generous enough for every
terminating run on the inputs considered (each unit of fuel bounds one
level of the mutual recursion). -/
def evalFuel (s : List Tok) : Nat := (s.length + 4) ^ 3

/-- Top-level evaluation as performed by `main`: `eval(toks)` on the whole
token buffer, returning the numeric result. -/
def evaluate (vars : List Var) (funcs : List Func) (s : List Tok) : Except EvalError ℚ :=
  (evalF vars funcs (evalFuel s) s 0).map Prod.fst

/-- Whole pipeline `evaluate(tokenize(expr))`, as a partial value: `none`
when either stage fails. -/
def runExpr (vars : List Var) (funcs : List Func) (expr : String) : Option ℚ :=
  match tokenize expr with
  | Except.error _ => none
  | Except.ok s =>
      match evaluate vars funcs s with
      | Except.error _ => none
      | Except.ok v => some v

/-- Evaluation-stage error of the whole pipeline, when there is one. -/
def runEvalErr (vars : List Var) (funcs : List Func) (expr : String) : Option EvalError :=
  match tokenize expr with
  | Except.error _ => none
  | Except.ok s =>
      match evaluate vars funcs s with
      | Except.error e => some e
      | Except.ok _ => none

/-- Structural integer square root (largest `k` with `k * k ≤ n`), used to
model `sqrt` exactly on perfect squares. -/
def natSqrt (n : Nat) : Nat :=
  ((List.range (n + 1)).takeWhile (fun k => k * k ≤ n)).length - 1

/-- Model of `fn_sqrt` (C `sqrt(args[0])`): exact on perfect squares of
naturals, the only shape exercised; a negative argument (NaN in C) is
mapped to 0. -/
def fn_sqrt (args : List ℚ) : ℚ :=
  let q := args.getD 0 0
  if q.den = 1 ∧ 0 ≤ q.num then (natSqrt q.num.toNat : ℚ) else 0

/-- Model of `fn_pow` (C `pow(args[0], args[1])`). -/
def fn_pow (args : List ℚ) : ℚ :=
  ratPow (args.getD 0 0) (args.getD 1 0)

/-- Truncation toward zero, as C `(double)(long)` style `fmod` uses. -/
def ratTrunc (q : ℚ) : ℤ :=
  if 0 ≤ q then ⌊q⌋ else ⌈q⌉

/-- Model of `fn_mod` (C `fmod(args[0], args[1])`):
`a - b * trunc(a / b)`. -/
def fn_mod (args : List ℚ) : ℚ :=
  let a := args.getD 0 0
  let b := args.getD 1 0
  a - b * (ratTrunc (a / b) : ℚ)

/-- Model of `fn_round` (C `round`: nearest, halfway away from zero). -/
def fn_round (args : List ℚ) : ℚ :=
  let q := args.getD 0 0
  if 0 ≤ q then ((⌊q + 1 / 2⌋ : ℤ) : ℚ) else ((⌈q - 1 / 2⌉ : ℤ) : ℚ)

/-- Model of `fn_floor`. -/
def fn_floor (args : List ℚ) : ℚ := ((⌊args.getD 0 0⌋ : ℤ) : ℚ)

/-- Model of `fn_ceil`. -/
def fn_ceil (args : List ℚ) : ℚ := ((⌈args.getD 0 0⌉ : ℤ) : ℚ)

/-- Function registry as populated by `main` (in registration order); the
transcendental `sin` and `cos` are kept as parameters of the model. -/
def mainFuncs (sinF cosF : ℚ → ℚ) : List Func :=
  add_func (add_func (add_func (add_func (add_func (add_func (add_func (add_func
    [] "sqrt" fn_sqrt 1) "pow" fn_pow 2) "mod" fn_mod 2) "round" fn_round 1)
    "floor" fn_floor 1) "ceil" fn_ceil 1)
    "sin" (fun a => sinF (a.getD 0 0)) 1) "cos" (fun a => cosF (a.getD 0 0)) 1

/-- Variable registry as populated by `main` (`unset_var("x")` on the empty
registry, then `pi` and `e`); the irrational values `M_PI` and `M_E` are
kept as parameters of the model. -/
def mainVars (piV eV : ℚ) : List Var :=
  set_var (set_var (unset_var [] "x") "pi" piV) "e" eV

/-- Error projection of an `Except` result. -/
def errOf {ε α : Type} : Except ε α → Option ε
  | Except.error e => some e
  | Except.ok _ => none

/-- Specification-side failure scan, following the words of the
specification: `tokenize` fails exactly on an unrecognized character (at
its byte offset), on a `')'` that would take the open-paren count
negative, or on a positive open-paren count left at end of input.  The
scan is character by character and tracks only the position and the
open-paren count; it is compared against the implementation's
`tokenizeLoop` by the refinement theorem below. -/
def specScan : List Char → Nat → Nat → Option TokenizeError
  | [], _, depth => if 0 < depth then some TokenizeError.unmatchedOpen else none
  | c :: rest, pos, depth =>
      if c = ' ' ∨ isFloatChar c ∨ isAlphaChar c then specScan rest (pos + 1) depth
      else if c = '(' then specScan rest (pos + 1) (depth + 1)
      else if c = ')' then
        if depth = 0 then some TokenizeError.unmatchedClose
        else specScan rest (pos + 1) (depth - 1)
      else if c = ',' ∨ c = '+' ∨ c = '-' ∨ c = '*' ∨ c = '/' ∨ c = '^' then
        specScan rest (pos + 1) depth
      else some (TokenizeError.unrecognized pos)

/-- Predicate form of the token kinds, used to state the implicit
multiplication rule. -/
def isNumTok : Tok → Bool
  | Tok.num _ => true
  | _ => false

/-- Identifier-kind test. -/
def isIdentTok : Tok → Bool
  | Tok.ident _ => true
  | _ => false

/-- Close-paren operator test. -/
def isCloseTok : Tok → Bool
  | Tok.op c => c = ')'
  | _ => false

lemma takeUpTo_append (n : Nat) (p : Char → Bool) (l : List Char) :
    takeUpTo n p l ++ l.drop (takeUpTo n p l).length = l := by
  induction l generalizing n with
  | nil => simp [takeUpTo]
  | cons c cs ih =>
      by_cases hn : n = 0
      · simp [takeUpTo, hn]
      · by_cases hp : p c
        · simp [takeUpTo, hn, hp, ih]
        · simp [takeUpTo, hn, hp]

lemma takeUpTo_all (n : Nat) (p : Char → Bool) (l : List Char) :
    ∀ c ∈ takeUpTo n p l, p c = true := by
  induction l generalizing n with
  | nil => simp [takeUpTo]
  | cons c cs ih =>
      intro d hd
      by_cases hn : n = 0
      · simp [takeUpTo, hn] at hd
      · by_cases hp : p c
        · simp only [takeUpTo, if_neg hn, if_pos hp] at hd
          rcases List.mem_cons.mp hd with h | h
          · exact h ▸ hp
          · exact ih (n - 1) d h
        · simp [takeUpTo, hn, hp] at hd

lemma specScan_skip : ∀ (t r : List Char) (pos depth : Nat),
    (∀ c ∈ t, c = ' ' ∨ isFloatChar c = true ∨ isAlphaChar c = true) →
    specScan (t ++ r) pos depth = specScan r (pos + t.length) depth := by
  intro t r
  induction t with
  | nil => intro pos depth _; simp
  | cons c cs ih =>
      intro pos depth h
      have hc := h c (List.mem_cons_self c cs)
      simp only [List.cons_append, specScan]
      rw [if_pos hc]
      simp only [List.append_eq]
      rw [ih (pos + 1) depth (fun d hd => h d (List.mem_cons_of_mem c hd))]
      congr 1
      simp [List.length_cons]
      omega

lemma tokenizeLoop_specScan : ∀ (fuel : Nat) (cs : List Char) (pos : Nat) (toks : List Tok) (depth : Nat),
    cs.length < fuel →
    errOf (tokenizeLoop fuel cs pos toks depth) = specScan cs pos depth := by
  intro fuel
  induction fuel with
  | zero => intro cs pos toks depth h; omega
  | succ fuel ih =>
      intro cs pos toks depth h
      match cs with
      | [] =>
          by_cases hd : 0 < depth
          · simp [tokenizeLoop, specScan, hd, errOf]
          · simp [tokenizeLoop, specScan, hd, errOf]
      | c :: rest =>
          have hlen : rest.length < fuel := by
            simpa [List.length_cons] using Nat.lt_of_succ_lt_succ h
          by_cases hsp : c = ' '
          · simp only [tokenizeLoop, specScan, hsp, if_true, true_or, eq_self_iff_true]
            exact ih rest (pos + 1) toks depth hlen
          · by_cases hfl : isFloatChar c = true
            · have hcond : (c = ' ' ∨ isFloatChar c = true ∨ isAlphaChar c = true) :=
                Or.inr (Or.inl hfl)
              have hall : ∀ d ∈ takeUpTo 14 isFloatChar rest,
                  d = ' ' ∨ isFloatChar d = true ∨ isAlphaChar d = true :=
                fun d hd => Or.inr (Or.inl (takeUpTo_all 14 isFloatChar rest d hd))
              have hdrop : (rest.drop (takeUpTo 14 isFloatChar rest).length).length < fuel := by
                simp only [List.length_drop]
                omega
              simp only [tokenizeLoop, specScan, if_neg hsp, if_pos hfl, if_pos hcond,
                List.length_cons, Nat.add_sub_cancel]
              rw [ih _ _ _ _ hdrop]
              conv_rhs => rw [← takeUpTo_append 14 isFloatChar rest]
              rw [specScan_skip _ _ _ _ hall]
              congr 1
              omega
            · by_cases hal : isAlphaChar c = true
              · have hcond : (c = ' ' ∨ isFloatChar c = true ∨ isAlphaChar c = true) :=
                  Or.inr (Or.inr hal)
                have hall : ∀ d ∈ takeUpTo 30 isAlphaChar rest,
                    d = ' ' ∨ isFloatChar d = true ∨ isAlphaChar d = true :=
                  fun d hd => Or.inr (Or.inr (takeUpTo_all 30 isAlphaChar rest d hd))
                have hdrop : (rest.drop (takeUpTo 30 isAlphaChar rest).length).length < fuel := by
                  simp only [List.length_drop]
                  omega
                simp only [tokenizeLoop, specScan, if_neg hsp, if_neg hfl, if_pos hal,
                  if_pos hcond, List.length_cons, Nat.add_sub_cancel]
                rw [ih _ _ _ _ hdrop]
                conv_rhs => rw [← takeUpTo_append 30 isAlphaChar rest]
                rw [specScan_skip _ _ _ _ hall]
                congr 1
                omega
              · have hncond : ¬(c = ' ' ∨ isFloatChar c = true ∨ isAlphaChar c = true) := by
                  simp [hsp, hfl, hal]
                by_cases hop : c = '('
                · simp only [tokenizeLoop, specScan, if_neg hsp, if_neg hfl, if_neg hal,
                    if_pos hop, if_neg hncond]
                  exact ih rest (pos + 1) _ (depth + 1) hlen
                · by_cases hcl : c = ')'
                  · by_cases hz : depth = 0
                    · simp only [tokenizeLoop, specScan, if_neg hsp, if_neg hfl, if_neg hal,
                        if_neg hop, if_pos hcl, if_pos hz, if_neg hncond, errOf]
                    · simp only [tokenizeLoop, specScan, if_neg hsp, if_neg hfl, if_neg hal,
                        if_neg hop, if_pos hcl, if_neg hz, if_neg hncond]
                      exact ih rest (pos + 1) _ (depth - 1) hlen
                  · by_cases hrest : c = ',' ∨ c = '+' ∨ c = '-' ∨ c = '*' ∨ c = '/' ∨ c = '^'
                    · simp only [tokenizeLoop, specScan, if_neg hsp, if_neg hfl, if_neg hal,
                        if_neg hop, if_neg hcl, if_pos hrest, if_neg hncond]
                      exact ih rest (pos + 1) _ depth hlen
                    · simp only [tokenizeLoop, specScan, if_neg hsp, if_neg hfl, if_neg hal,
                        if_neg hop, if_neg hcl, if_neg hrest, if_neg hncond, errOf]

lemma push_tok_full (toks : List Tok) (t : Tok) (h : TOKS_CAP ≤ toks.length) :
    push_tok toks t = toks := by
  rw [push_tok, if_neg (by omega)]

lemma ite_push_full (toks : List Tok) (t : Tok) (P : Prop) [Decidable P]
    (h : TOKS_CAP ≤ toks.length) :
    (if P then push_tok toks t else toks) = toks := by
  split
  · exact push_tok_full toks t h
  · rfl

lemma tokenizeLoop_at_cap : ∀ (fuel : Nat) (cs : List Char) (pos : Nat) (toks : List Tok) (depth : Nat),
    TOKS_CAP ≤ toks.length →
    tokenizeLoop fuel cs pos toks depth = Except.ok toks ∨
      ∃ e, tokenizeLoop fuel cs pos toks depth = Except.error e := by
  intro fuel
  induction fuel with
  | zero => intro cs pos toks depth _; exact Or.inr ⟨TokenizeError.outOfFuel, rfl⟩
  | succ fuel ih =>
      intro cs pos toks depth h
      match cs with
      | [] =>
          by_cases hd : 0 < depth
          · exact Or.inr ⟨TokenizeError.unmatchedOpen, by simp [tokenizeLoop, hd]⟩
          · left
            simp [tokenizeLoop, hd, push_tok_full toks _ h]
      | c :: rest =>
          by_cases hsp : c = ' '
          · simp only [tokenizeLoop, if_pos hsp]
            exact ih rest (pos + 1) toks depth h
          · by_cases hfl : isFloatChar c = true
            · simp only [tokenizeLoop, if_neg hsp, if_pos hfl,
                push_tok_full toks _ h, ite_self]
              exact ih _ _ toks depth h
            · by_cases hal : isAlphaChar c = true
              · simp only [tokenizeLoop, if_neg hsp, if_neg hfl, if_pos hal,
                  push_tok_full toks _ h, ite_self]
                exact ih _ _ toks depth h
              · by_cases hop : c = '('
                · simp only [tokenizeLoop, if_neg hsp, if_neg hfl, if_neg hal, if_pos hop,
                    push_tok_full toks _ h, ite_self]
                  exact ih rest (pos + 1) toks (depth + 1) h
                · by_cases hcl : c = ')'
                  · by_cases hz : depth = 0
                    · exact Or.inr ⟨TokenizeError.unmatchedClose, by simp only [tokenizeLoop,
                        if_neg hsp, if_neg hfl, if_neg hal, if_neg hop, if_pos hcl, if_pos hz]⟩
                    · simp only [tokenizeLoop, if_neg hsp, if_neg hfl, if_neg hal, if_neg hop,
                        if_pos hcl, if_neg hz, push_tok_full toks _ h]
                      exact ih rest (pos + 1) toks (depth - 1) h
                  · by_cases hrest : c = ',' ∨ c = '+' ∨ c = '-' ∨ c = '*' ∨ c = '/' ∨ c = '^'
                    · simp only [tokenizeLoop, if_neg hsp, if_neg hfl, if_neg hal, if_neg hop,
                        if_neg hcl, if_pos hrest, push_tok_full toks _ h]
                      exact ih rest (pos + 1) toks depth h
                    · exact Or.inr ⟨TokenizeError.unrecognized pos, by simp only [tokenizeLoop,
                        if_neg hsp, if_neg hfl, if_neg hal, if_neg hop, if_neg hcl, if_neg hrest]⟩

lemma takeUpTo_of_all (n : Nat) (p : Char → Bool) (l : List Char)
    (hlen : l.length ≤ n) (hall : ∀ c ∈ l, p c = true) : takeUpTo n p l = l := by
  induction l generalizing n with
  | nil => simp [takeUpTo]
  | cons c cs ih =>
      have hn : ¬ n = 0 := by simp only [List.length_cons] at hlen; omega
      rw [takeUpTo, if_neg hn, if_pos (hall c (List.mem_cons_self c cs))]
      congr 1
      exact ih (n - 1) (by simp only [List.length_cons] at hlen; omega)
        (fun d hd => hall d (List.mem_cons_of_mem c hd))

lemma tokenize_single_number (cs : List Char) (hne : cs ≠ [])
    (hlen : cs.length ≤ 15) (hall : ∀ c ∈ cs, isFloatChar c = true) :
    tokenize (String.mk cs) = Except.ok [Tok.op '(', Tok.num (strtodModel cs), Tok.op ')'] := by
  match cs, hne with
  | c :: rest, _ =>
      have hc : isFloatChar c = true := hall c (List.mem_cons_self c rest)
      have hsp : ¬ c = ' ' := by
        intro e
        rw [e] at hc
        exact absurd hc (by decide)
      have htake : takeUpTo 14 isFloatChar rest = rest :=
        takeUpTo_of_all 14 _ rest (by simp only [List.length_cons] at hlen; omega)
          (fun d hd => hall d (List.mem_cons_of_mem c hd))
      show tokenizeLoop ((c :: rest).length + 1) (c :: rest) 0 (push_tok [] (Tok.op '(')) 0 = _
      rw [show ((c :: rest).length + 1) = rest.length + 1 + 1 by simp]
      rw [show push_tok [] (Tok.op '(') = [Tok.op '('] from rfl]
      simp only [tokenizeLoop, if_neg hsp, if_pos hc, htake]
      rw [show starBeforeAtom (lastTok [Tok.op '(']) = false from rfl]
      simp only [Bool.false_eq_true, if_false, List.length_cons, Nat.add_sub_cancel,
        List.drop_length]
      rw [show push_tok [Tok.op '('] (Tok.num (strtodModel (c :: rest)))
            = [Tok.op '(', Tok.num (strtodModel (c :: rest))] from rfl]
      simp only [tokenizeLoop, Nat.lt_irrefl, if_false]
      rfl

lemma filter_name_nil (vars : List Var) (n : String) (h : n ∉ vars.map Var.name) :
    vars.filter (fun w => w.name = n) = [] := by
  induction vars with
  | nil => rfl
  | cons w ws ih =>
      simp only [List.map_cons, List.mem_cons] at h
      push_neg at h
      rw [List.filter_cons, if_neg (by simp [Ne.symm h.1])]
      exact ih h.2

lemma set_var_map_name (vars : List Var) (n : String) (v : ℚ) :
    (set_var vars n v).map Var.name =
      if n ∈ vars.map Var.name then vars.map Var.name else vars.map Var.name ++ [n] := by
  induction vars with
  | nil => simp [set_var]
  | cons w ws ih =>
      by_cases hw : w.name = n
      · simp [set_var, hw]
      · simp only [set_var, if_neg hw, List.map_cons, ih, List.mem_cons]
        by_cases hm : n ∈ ws.map Var.name
        · simp [hm, Ne.symm hw]
        · simp [hm, Ne.symm hw]

lemma set_var_nodup (vars : List Var) (n : String) (v : ℚ)
    (h : (vars.map Var.name).Nodup) : ((set_var vars n v).map Var.name).Nodup := by
  rw [set_var_map_name]
  by_cases hm : n ∈ vars.map Var.name
  · rwa [if_pos hm]
  · rw [if_neg hm]
    exact List.Nodup.append h (List.nodup_singleton n)
      (fun a ha hb => by simp only [List.mem_singleton] at hb; exact hm (hb ▸ ha))

lemma set_var_filter (vars : List Var) (n : String) (v : ℚ)
    (h : (vars.map Var.name).Nodup) :
    (set_var vars n v).filter (fun w => w.name = n) = [⟨n, v⟩] := by
  induction vars with
  | nil => simp [set_var]
  | cons w ws ih =>
      simp only [List.map_cons, List.nodup_cons] at h
      by_cases hw : w.name = n
      · rw [set_var, if_pos hw, List.filter_cons, if_pos (by simp [hw])]
        rw [filter_name_nil ws n (hw ▸ h.1)]
        simp [hw]
      · rw [set_var, if_neg hw, List.filter_cons, if_neg (by simp [hw])]
        exact ih h.2

lemma unset_var_mem_name (vars : List Var) (n : String) (x : String)
    (h : x ∈ (unset_var vars n).map Var.name) : x ∈ vars.map Var.name := by
  induction vars with
  | nil => simp [unset_var] at h
  | cons w ws ih =>
      by_cases hw : w.name = n
      · rw [unset_var, if_pos hw] at h
        exact List.mem_cons_of_mem _ h
      · rw [unset_var, if_neg hw, List.map_cons] at h
        rcases List.mem_cons.mp h with h1 | h1
        · exact List.mem_cons.mpr (Or.inl h1)
        · exact List.mem_cons_of_mem _ (ih h1)

lemma unset_var_nodup (vars : List Var) (n : String)
    (h : (vars.map Var.name).Nodup) : ((unset_var vars n).map Var.name).Nodup := by
  induction vars with
  | nil => simp [unset_var]
  | cons w ws ih =>
      simp only [List.map_cons, List.nodup_cons] at h
      by_cases hw : w.name = n
      · rw [unset_var, if_pos hw]
        exact h.2
      · rw [unset_var, if_neg hw, List.map_cons]
        exact List.nodup_cons.mpr ⟨fun hm => h.1 (unset_var_mem_name ws n _ hm), ih h.2⟩

lemma unset_var_filter (vars : List Var) (n : String)
    (h : (vars.map Var.name).Nodup) :
    (unset_var vars n).filter (fun w => w.name = n) = [] := by
  induction vars with
  | nil => rfl
  | cons w ws ih =>
      simp only [List.map_cons, List.nodup_cons] at h
      by_cases hw : w.name = n
      · rw [unset_var, if_pos hw]
        exact filter_name_nil ws n (hw ▸ h.1)
      · rw [unset_var, if_neg hw, List.filter_cons, if_neg (by simp [hw])]
        exact ih h.2

set_option maxRecDepth 4000

/-- C1: evaluation folds binary operators by the precedence table (`+` and
`-` at 1, `*` and `/` at 2, `^` at 3, the delimiters `( ) ,` at 0) with `^`
right-associative and every other operator left-associative; concretely,
evaluating the tokenization of "2+3*4" gives 14, of "(2+3)*4" gives 20, and
of "2^3^2" gives 512 (right-associative, not 64), whatever the registries
hold. -/
theorem C1_precedence_associativity :
    (op_prec '+' = 1 ∧ op_prec '-' = 1 ∧ op_prec '*' = 2 ∧ op_prec '/' = 2 ∧
      op_prec '^' = 3 ∧ op_prec '(' = 0 ∧ op_prec ')' = 0 ∧ op_prec ',' = 0) ∧
    (op_order '^' = Order.rtl ∧ op_order '+' = Order.ltr ∧ op_order '-' = Order.ltr ∧
      op_order '*' = Order.ltr ∧ op_order '/' = Order.ltr ∧
      op_order '(' = Order.ltr ∧ op_order ')' = Order.ltr) ∧
    (∀ vars funcs,
      runExpr vars funcs "2+3*4" = some 14 ∧
      runExpr vars funcs "(2+3)*4" = some 20 ∧
      runExpr vars funcs "2^3^2" = some 512) :=
  ⟨by decide, by decide, fun vars funcs =>
    ⟨by with_unfolding_all rfl, by with_unfolding_all rfl, by with_unfolding_all rfl⟩⟩

/-- C2: the collapse phase resolves a unary minus by first recursively
collapsing its right-hand neighbour to a number, negating it, and deleting
the minus before any binary fold; hence "-2^2" evaluates to 4 (the minus is
applied to the 2 before the `^` fold), "- -3" to 3, and "-sqrt(4)" to -2,
for any variable registry and any interpretation of `sin`/`cos`. -/
theorem C2_unary_minus_collapse : ∀ (vars : List Var) (sinF cosF : ℚ → ℚ),
    runExpr vars (mainFuncs sinF cosF) "-2^2" = some 4 ∧
    runExpr vars (mainFuncs sinF cosF) "- -3" = some 3 ∧
    runExpr vars (mainFuncs sinF cosF) "-sqrt(4)" = some (-2) :=
  fun vars sinF cosF =>
    ⟨by with_unfolding_all rfl, by with_unfolding_all rfl, by with_unfolding_all rfl⟩

/-- C3 counterexample: the claim predicts an implicit `*` before every `(`
whose predecessor is an identifier, but tokenizing "x(1)" yields no `*`
token at all — an identifier directly before `(` is a function call. -/
theorem C3_counterexample :
    tokenize "x(1)" = Except.ok
      [Tok.op '(', Tok.ident "x", Tok.op '(', Tok.num 1, Tok.op ')', Tok.op ')'] ∧
    Tok.op '*' ∉
      [Tok.op '(', Tok.ident "x", Tok.op '(', Tok.num 1, Tok.op ')', Tok.op ')'] :=
  ⟨by with_unfolding_all rfl, by decide⟩

/-- C3 (amended): before emitting a Number or an Identifier the tokenizer
inserts `Operator('*')` exactly when the previous token is a Number, an
Identifier, or `)`; before emitting `(` it does so exactly when the
previous token is a Number or `)` — an Identifier directly before `(`
starts a function call and receives no star.  This makes "2x", "x y",
"(a)(b)" and "2(3)" well-formed, and evaluate∘tokenize maps "2(3+4)" to 14
and "2pi" to twice the registered value of pi. -/
theorem C3_implicit_multiplication :
    (∀ t, starBeforeAtom t = (isNumTok t || isIdentTok t || isCloseTok t)) ∧
    (∀ t, starBeforeParen t = (isNumTok t || isCloseTok t)) ∧
    tokenize "2x" = Except.ok
      [Tok.op '(', Tok.num 2, Tok.op '*', Tok.ident "x", Tok.op ')'] ∧
    tokenize "x y" = Except.ok
      [Tok.op '(', Tok.ident "x", Tok.op '*', Tok.ident "y", Tok.op ')'] ∧
    tokenize "(a)(b)" = Except.ok
      [Tok.op '(', Tok.op '(', Tok.ident "a", Tok.op ')', Tok.op '*',
        Tok.op '(', Tok.ident "b", Tok.op ')', Tok.op ')'] ∧
    tokenize "2(3)" = Except.ok
      [Tok.op '(', Tok.num 2, Tok.op '*', Tok.op '(', Tok.num 3, Tok.op ')', Tok.op ')'] ∧
    (∀ vars funcs, runExpr vars funcs "2(3+4)" = some 14) ∧
    (∀ piV eV sinF cosF,
      runExpr (mainVars piV eV) (mainFuncs sinF cosF) "2pi" = some (2 * piV)) :=
  ⟨fun t => by cases t <;> simp [starBeforeAtom, isNumTok, isIdentTok, isCloseTok],
   fun t => by cases t <;> simp [starBeforeParen, isNumTok, isIdentTok, isCloseTok],
   by with_unfolding_all rfl, by with_unfolding_all rfl, by with_unfolding_all rfl,
   by with_unfolding_all rfl,
   fun vars funcs => by with_unfolding_all rfl,
   fun piV eV sinF cosF => by with_unfolding_all rfl⟩

/-- C4: tokenization fails exactly as described by the character-level
specification scan — on an unrecognized character (reported at its byte
offset), on a `)` that would take the open-paren count negative, or on a
positive open-paren count left at end of input — and on failure only the
error is returned (no token sequence); concretely "(1+2" fails with the
unmatched-`(` error, "1+2)" with the unmatched-`)` error, and "1@2" with
the unrecognized-character error at offset 1. -/
theorem C4_tokenize_failure_conditions :
    (∀ expr, errOf (tokenize expr) = specScan expr.data 0 0) ∧
    tokenize "(1+2" = Except.error TokenizeError.unmatchedOpen ∧
    tokenize "1+2)" = Except.error TokenizeError.unmatchedClose ∧
    tokenize "1@2" = Except.error (TokenizeError.unrecognized 1) :=
  ⟨fun expr => tokenizeLoop_specScan _ _ 0 _ 0 (Nat.lt_succ_self _),
   by with_unfolding_all rfl, by with_unfolding_all rfl, by with_unfolding_all rfl⟩

/-- C5: collapsing a function call evaluates each comma-separated argument
recursively, checks the collected count against the registered arity, and
replaces the whole call with the computed number: with the built-ins of
`main` registered, "sqrt(16)" evaluates to 4, "pow(2,10)" to 1024, and
"sqrt(1,2)" fails with the arity error (sqrt expects 1 argument, got 2). -/
theorem C5_function_call_collapse : ∀ (piV eV : ℚ) (sinF cosF : ℚ → ℚ),
    runExpr (mainVars piV eV) (mainFuncs sinF cosF) "sqrt(16)" = some 4 ∧
    runExpr (mainVars piV eV) (mainFuncs sinF cosF) "pow(2,10)" = some 1024 ∧
    runEvalErr (mainVars piV eV) (mainFuncs sinF cosF) "sqrt(1,2)" =
      some (EvalError.arityMismatch "sqrt" 1 2) :=
  fun piV eV sinF cosF =>
    ⟨by with_unfolding_all rfl, by with_unfolding_all rfl, by with_unfolding_all rfl⟩

/-- C6: unknown names fail at evaluation time: a call to a name absent from
the function registry fails with the unknown-function error and a bare
identifier absent from the variable registry fails with the
unknown-variable error, while a present identifier is replaced by its
registered value ("e" evaluates to the registered value of e); with
`main`'s registries, "foo(1)" fails with UnknownFunction "foo" and "bar+1"
with UnknownVariable "bar". -/
theorem C6_unknown_symbol_errors : ∀ (piV eV : ℚ) (sinF cosF : ℚ → ℚ),
    runEvalErr (mainVars piV eV) (mainFuncs sinF cosF) "foo(1)" =
      some (EvalError.unknownFunction "foo") ∧
    runEvalErr (mainVars piV eV) (mainFuncs sinF cosF) "bar+1" =
      some (EvalError.unknownVariable "bar") ∧
    runExpr (mainVars piV eV) (mainFuncs sinF cosF) "e" = some eV :=
  fun piV eV sinF cosF =>
    ⟨by with_unfolding_all rfl, by with_unfolding_all rfl, by with_unfolding_all rfl⟩

/-- C8 counterexample: a 16-character numeric literal is not parsed as one
(truncated) Number token: the scan takes 15 characters, then re-enters the
number branch on the 16th and, the previous token being a Number, inserts
an implicit `*`, producing two Number tokens. -/
theorem C8_counterexample :
    tokenize "1234567890123456" = Except.ok
      [Tok.op '(', Tok.num 123456789012345, Tok.op '*', Tok.num 6, Tok.op ')'] ∧
    tokenize "1234567890123456" ≠ Except.ok
      [Tok.op '(', Tok.num 123456789012345, Tok.op ')'] := by
  have h1 : tokenize "1234567890123456" = Except.ok
      [Tok.op '(', Tok.num 123456789012345, Tok.op '*', Tok.num 6, Tok.op ')'] := by
    with_unfolding_all rfl
  refine ⟨h1, ?_⟩
  intro h2
  rw [h1] at h2
  have h3 := congrArg (fun l => l.length) (Except.ok.inj h2)
  simp only [List.length_cons, List.length_nil] at h3
  omega

/-- C8 (amended): a maximal run of digit/decimal-point characters of at
most 15 characters is parsed as a single Number token (value per the
`strtod` model); a longer run is not truncated into one token but split —
the first 15 characters form one Number and the scan re-enters the number
branch on the remainder with an implicit `*` in between — and no error is
raised either way. -/
theorem C8_number_scan :
    (∀ cs : List Char, cs ≠ [] → cs.length ≤ 15 → (∀ c ∈ cs, isFloatChar c = true) →
      tokenize (String.mk cs) =
        Except.ok [Tok.op '(', Tok.num (strtodModel cs), Tok.op ')']) ∧
    tokenize "1234567890123456" = Except.ok
      [Tok.op '(', Tok.num 123456789012345, Tok.op '*', Tok.num 6, Tok.op ')'] :=
  ⟨tokenize_single_number, by with_unfolding_all rfl⟩

/-- C8 witness: the general part of `C8_number_scan` applied to the
two-character literal "42". -/
theorem C8_number_scan_witness :
    ((['4', '2'] : List Char) ≠ [] ∧ (['4', '2'] : List Char).length ≤ 15 ∧
      (∀ c ∈ (['4', '2'] : List Char), isFloatChar c = true)) ∧
    tokenize (String.mk ['4', '2']) =
      Except.ok [Tok.op '(', Tok.num (strtodModel ['4', '2']), Tok.op ')'] :=
  ⟨⟨by decide, by decide, by decide⟩,
   C8_number_scan.1 ['4', '2'] (by decide) (by decide) (by decide)⟩

/-- C9: the variable registry never holds two entries for one name:
starting from a registry with pairwise distinct names, `set_var` preserves
distinctness and leaves exactly the entry `(name, value)` for the written
name, `unset_var` preserves distinctness and leaves no entry for the
removed name, and concretely setting x to 5 and then to 7 leaves exactly
the single entry (x, 7). -/
theorem C9_registry_no_duplicates :
    (∀ (vars : List Var) (n : String) (v : ℚ), (vars.map Var.name).Nodup →
      ((set_var vars n v).map Var.name).Nodup ∧
      (set_var vars n v).filter (fun w => w.name = n) = [⟨n, v⟩]) ∧
    (∀ (vars : List Var) (n : String), (vars.map Var.name).Nodup →
      ((unset_var vars n).map Var.name).Nodup ∧
      (unset_var vars n).filter (fun w => w.name = n) = []) ∧
    set_var (set_var [] "x" 5) "x" 7 = [⟨"x", 7⟩] :=
  ⟨fun vars n v h => ⟨set_var_nodup vars n v h, set_var_filter vars n v h⟩,
   fun vars n h => ⟨unset_var_nodup vars n h, unset_var_filter vars n h⟩,
   by with_unfolding_all rfl⟩

/-- C9 witness: `C9_registry_no_duplicates` applied to the concrete
registry holding only (y, 1). -/
theorem C9_registry_no_duplicates_witness :
    (([⟨"y", (1 : ℚ)⟩] : List Var).map Var.name).Nodup ∧
    (((set_var [⟨"y", (1 : ℚ)⟩] "x" 5).map Var.name).Nodup ∧
      (set_var [⟨"y", (1 : ℚ)⟩] "x" 5).filter (fun w => w.name = "x") = [⟨"x", 5⟩]) ∧
    (((unset_var [⟨"y", (1 : ℚ)⟩] "y").map Var.name).Nodup ∧
      (unset_var [⟨"y", (1 : ℚ)⟩] "y").filter (fun w => w.name = "y") = []) :=
  ⟨by decide,
   C9_registry_no_duplicates.1 [⟨"y", (1 : ℚ)⟩] "x" 5 (by decide),
   C9_registry_no_duplicates.2.1 [⟨"y", (1 : ℚ)⟩] "y" (by decide)⟩

/-- C10: the token buffer capacity is 65536; once the buffer is at
capacity, `push_tok` silently discards every further token; a scan started
at capacity either returns the buffer unchanged or fails for a reason of
its own (never because of the discards); and the error outcome of the scan
is entirely independent of the accumulated tokens, so token truncation
never produces a tokenization error. -/
theorem C10_silent_capacity_truncation :
    TOKS_CAP = 65536 ∧
    (∀ (toks : List Tok) (t : Tok), TOKS_CAP ≤ toks.length → push_tok toks t = toks) ∧
    (∀ (fuel : Nat) (cs : List Char) (pos : Nat) (toks : List Tok) (depth : Nat),
      TOKS_CAP ≤ toks.length →
      tokenizeLoop fuel cs pos toks depth = Except.ok toks ∨
        ∃ e, tokenizeLoop fuel cs pos toks depth = Except.error e) ∧
    (∀ (fuel : Nat) (cs : List Char) (pos : Nat) (toks toks2 : List Tok) (depth : Nat),
      cs.length < fuel →
      errOf (tokenizeLoop fuel cs pos toks depth) =
        errOf (tokenizeLoop fuel cs pos toks2 depth)) :=
  ⟨rfl, push_tok_full, tokenizeLoop_at_cap,
   fun fuel cs pos toks toks2 depth h => by
     rw [tokenizeLoop_specScan fuel cs pos toks depth h,
       tokenizeLoop_specScan fuel cs pos toks2 depth h]⟩

/-- C10 witness: `C10_silent_capacity_truncation` applied to a buffer of
exactly 65536 tokens and to the one-character input "1". -/
theorem C10_silent_capacity_truncation_witness :
    (TOKS_CAP ≤ (List.replicate TOKS_CAP (Tok.op '+')).length ∧
      push_tok (List.replicate TOKS_CAP (Tok.op '+')) (Tok.num 0) =
        List.replicate TOKS_CAP (Tok.op '+')) ∧
    (tokenizeLoop 2 ['1'] 0 (List.replicate TOKS_CAP (Tok.op '+')) 0 =
        Except.ok (List.replicate TOKS_CAP (Tok.op '+')) ∨
      ∃ e, tokenizeLoop 2 ['1'] 0 (List.replicate TOKS_CAP (Tok.op '+')) 0 =
        Except.error e) ∧
    ((['1'] : List Char).length < 2 ∧
      errOf (tokenizeLoop 2 ['1'] 0 [] 0) = errOf (tokenizeLoop 2 ['1'] 0 [Tok.null] 0)) := by
  have hlen : TOKS_CAP ≤ (List.replicate TOKS_CAP (Tok.op '+')).length := by
    rw [List.length_replicate]
  exact ⟨⟨hlen, C10_silent_capacity_truncation.2.1 _ _ hlen⟩,
    C10_silent_capacity_truncation.2.2.1 2 ['1'] 0 _ 0 hlen,
    ⟨by decide, C10_silent_capacity_truncation.2.2.2 2 ['1'] 0 [] [Tok.null] 0 (by decide)⟩⟩
